import Mathlib

/-!
Shallow embedding of `src/alkoteka_scraper.py` (alkoteka.com product scraper)
and verification of the claims of its specification.

Modelling conventions:
- JSON values are the inductive `Json`; Python dictionaries that the code
  only ever reads through key lookup are modelled as finite-support maps
  `String → Option β` (Python dict insertion order is unobservable through
  lookup, which is the only observation the verified claims make).
- The HTTP fetch client converts transport failures into `None`
  (`fetch_json` in the source); callers are therefore parameterised by the
  already-fetched `Option` outcome instead of performing IO.
- Machine integers do not occur: page numbers and sizes are `Nat`.
- Python truthiness of an optional string (`None` and `""` falsy) is
  `truthyOptStr`; truthiness of a list is its non-emptiness.
-/

/-- JSON documents, as produced by `json.load` / consumed by `json.dump`
in the source. Numbers are integers (the scraper never manipulates
floating-point JSON values). -/
inductive Json where
  | null
  | bool (b : Bool)
  | num (n : Int)
  | str (s : String)
  | arr (items : List Json)
  | obj (fields : List (String × Json))

/-- Lookup of a key in a JSON object, modelling Python `d.get(key)` on a
parsed JSON dict: `none` when the key is absent or the value is not an
object. -/
def jGet (j : Json) (key : String) : Option Json :=
  match j with
  | Json.obj fields => (fields.find? (fun kv => kv.1 == key)).map (fun kv => kv.2)
  | _ => none

/-- Pointwise update of a finite map, modelling Python dict assignment
`d[k] = v` (later assignments to the same key overwrite earlier ones). -/
def fupdate {β : Type} (d : String → Option β) (k : String) (v : β) : String → Option β :=
  fun q => if q = k then some v else d q

/-- Python truthiness of an optional string: `None` and `""` are falsy. -/
def truthyOptStr : Option String → Bool
  | none => false
  | some s => s ≠ ""

-- === CACHE (save_json / load_json, lines 54-65) ===

/-- The cache store: each path holds the parsed JSON document of the
backing file, or `none` when the file does not exist. -/
def Store : Type := String → Option Json

/-- Embedding of `save_json` (line 54): writes `data` under `path`, a full
overwrite of whatever was there. -/
def save_json (store : Store) (path : String) (data : Json) : Store :=
  fun p => if p = path then some data else store p

/-- Embedding of `load_json` (line 60): returns the document stored at
`path` if the backing file exists, otherwise `none`. -/
def load_json (store : Store) (path : String) : Option Json :=
  store path

-- === CITY (get_city_uuid, lines 69-79) ===

/-- One entry of the `/city` listing: `{name, uuid}`. -/
structure CityEntry where
  name : String
  uuid : String
deriving DecidableEq

/-- The `/city` response: `meta.accented` sub-list plus default `results`
sub-list. -/
structure CityListing where
  accented : List CityEntry
  results : List CityEntry

/-- The city table `{name: uuid}` built by `get_city_uuid`. -/
def CityTable : Type := String → Option String

/-- Embedding of the dict comprehension
`{city["name"]: city["uuid"] for city in combined}` (line 77): a left fold
of overwriting insertions, so a later entry with the same name overwrites
an earlier one. -/
def buildCityTable (combined : List CityEntry) : CityTable :=
  combined.foldl (fun d c => fupdate d c.name c.uuid) (fun _ => none)

/-- First-match lookup in an association list, modelling `.get` on a dict
parsed back from a JSON object (such dicts have unique keys). -/
def assocGet (d : List (String × String)) (k : String) : Option String :=
  (d.find? (fun kv => kv.1 == k)).map (fun kv => kv.2)

/-- Embedding of `get_city_uuid` (line 69). `cache` is the parsed content
of `cities.json` (an object, given as its field list) or `none` when the
file is absent; `resp` is the outcome of fetching `/city`. Mirrors the
source: `if not cities` (absent or empty) rebuild from
`meta.accented + results`, else look up in the cache; on fetch failure
resolution fails with `none`. Persisting the rebuilt table is the cache
store's `save_json`, elided from the return value. -/
def get_city_uuid (cache : Option (List (String × String))) (resp : Option CityListing)
    (city_name : String) : Option String :=
  let cached := cache.getD []
  if cached.isEmpty then
    match resp with
    | none => none
    | some data => buildCityTable (data.accented ++ data.results) city_name
  else assocGet cached city_name

/-- The uuid of the last entry carrying name `n`, the value a Python dict
comprehension keeps for key `n`. -/
def lastUuidFor (entries : List CityEntry) (n : String) : Option String :=
  entries.foldl (fun acc e => if e.name = n then some e.uuid else acc) none

-- === FILTERS (extract_filters, lines 96-108) ===

/-- One facet value `{name, slug, enabled}` of the `/product` facet
metadata (spec section 6). `enabled` is the truthiness of
`val.get("enabled")`. -/
structure FacetValue where
  name : String
  slug : String
  enabled : Bool
deriving DecidableEq

/-- One facet `{code, values}`. `code` is `facet.get("code")`, so possibly
absent; `values` is `facet.get("values", [])`. -/
structure Facet where
  code : Option String
  values : List FacetValue
deriving DecidableEq

/-- The filter table: filter code to the kept `{name, slug}` pairs. -/
def FilterTable : Type := String → Option (List (String × String))

/-- The `{name, slug}` projections of the values of a facet whose
`enabled` flag is truthy, in source order (line 103). -/
def enabledPairs (values : List FacetValue) : List (String × String) :=
  (values.filter (fun v => v.enabled)).map (fun v => (v.name, v.slug))

/-- One iteration of the `extract_filters` loop (lines 99-107): a facet
with a truthy code and a non-empty values list stores its enabled values
under its code, any other facet is discarded. -/
def extractStep (filters : FilterTable) (facet : Facet) : FilterTable :=
  if truthyOptStr facet.code && !facet.values.isEmpty then
    fupdate filters (facet.code.getD "") (enabledPairs facet.values)
  else filters

/-- Embedding of `extract_filters` (line 96): fold `extractStep` over the
facet list, starting from the empty table. -/
def extract_filters (facets : List Facet) : FilterTable :=
  facets.foldl extractStep (fun _ => none)

-- === PRODUCTS (fetch_products, lines 129-147) ===

/-- A query-parameter value: scalar string, scalar number, or the repeated
array-style list built by `setdefault(key, []).append(val)`. -/
inductive PVal where
  | str (s : String)
  | nat (n : Nat)
  | list (vs : List String)
deriving DecidableEq

/-- The query-parameter set `params` of `fetch_products`. -/
def ParamSet : Type := String → Option PVal

/-- The repeated array-style key `options[<code>][]` for a filter code. -/
def optionsKey (code : String) : String :=
  "options[" ++ code ++ "][]"

/-- Embedding of `params.setdefault(key, []).append(val)` (line 144): if
the key is absent, bind it to the one-element list `[val]`; if it holds a
list, append `val`; any other existing value is left as is (in Python that
would raise, and it is unreachable here because only list values are ever
stored under an `options` key). -/
def setdefaultAppend (ps : ParamSet) (key : String) (val : String) : ParamSet :=
  fun q =>
    if q = key then
      match ps key with
      | some (PVal.list vs) => some (PVal.list (vs ++ [val]))
      | some other => some other
      | none => some (PVal.list [val])
    else ps q

/-- The inner filter loop of `fetch_products` (lines 141-144): for one
filter code, append one repeated array-style entry per selected slug. -/
def addFilterOptions (ps : ParamSet) (cv : String × List String) : ParamSet :=
  cv.2.foldl (fun ps2 val => setdefaultAppend ps2 (optionsKey cv.1) val) ps

/-- The parameter set before the filter loop (lines 133-139): always
`city_uuid`, `page`, `per_page`; `root_category_slug` only for a truthy
category. -/
def baseParams (city_uuid : String) (category : Option String)
    (page per_page : Nat) : ParamSet :=
  let base : ParamSet := fun k =>
    if k = "city_uuid" then some (PVal.str city_uuid)
    else if k = "page" then some (PVal.nat page)
    else if k = "per_page" then some (PVal.nat per_page)
    else none
  if truthyOptStr category then
    fun k => if k = "root_category_slug" then some (PVal.str (category.getD "")) else base k
  else base

/-- Embedding of the parameter construction of `fetch_products`
(lines 133-144). `filters` is the Python dict given as its entry list
(codes are unique in a dict); iterating an absent or empty dict and
skipping the loop via `if filters:` coincide. -/
def fetch_products_params (city_uuid : String) (category : Option String)
    (page per_page : Nat) (filters : List (String × List String)) : ParamSet :=
  filters.foldl addFilterOptions (baseParams city_uuid category page per_page)

/-- Embedding of the result extraction of `fetch_products` (line 147):
`data.get("results", []) if data else []` — the absence signal of the
fetch client and a missing or non-array `results` field both yield the
empty list. -/
def fetch_products_results (resp : Option Json) : List Json :=
  match resp with
  | none => []
  | some d =>
    match jGet d "results" with
    | some (Json.arr items) => items
    | _ => []

-- === METADATA REBUILD (update_filter_cache, lines 111-125) ===

/-- The facet metadata reached through `.get("meta", {}).get("facets", [])`
on a successful facet fetch (line 113). -/
structure FacetsResponse where
  facets : List Facet

/-- The category table: category slug to the embedded category object. -/
def CategoryTable : Type := String → Option Json

/-- Embedding of the category dict comprehension (lines 119-121):
`{p["category"]["slug"]: p["category"] for p in products if "category" in p}`.
Products without a `category` key are skipped; a category without a
string `slug` makes the comprehension raise, modelled as `none`. -/
def buildCategories : List Json → CategoryTable → Option CategoryTable
  | [], acc => some acc
  | p :: ps, acc =>
    match jGet p "category" with
    | none => buildCategories ps acc
    | some cat =>
      match jGet cat "slug" with
      | some (Json.str s) => buildCategories ps (fupdate acc s cat)
      | _ => none

/-- The two metadata caches written by `update_filter_cache`. -/
structure CacheState where
  filterCache : Option FilterTable
  categoryCache : Option CategoryTable

/-- Embedding of `update_filter_cache` (line 111). `facetsResp` is the
outcome of `fetch_facets`: on absence the source calls `.get` on `None`
and raises `AttributeError`, modelled as `Except.error`. Otherwise both
caches are recomputed and saved unconditionally; the product fetch outcome
`productsResp` goes through `fetch_products_results`, so its failure yields
an empty product list, not an error. -/
def update_filter_cache (facetsResp : Option FacetsResponse) (productsResp : Option Json)
    (_st : CacheState) : Except String CacheState :=
  match facetsResp with
  | none => Except.error "AttributeError"
  | some resp =>
    let filters := extract_filters resp.facets
    let products := fetch_products_results productsResp
    match buildCategories products (fun _ => none) with
    | none => Except.error "KeyError"
    | some categories =>
      Except.ok { filterCache := some filters, categoryCache := some categories }

-- === FILENAME SANITIZATION (sanitize_filename_component, lines 150-152) ===

/-- Python default `str.strip` whitespace, restricted to the ASCII
whitespace repertoire. -/
def pyIsSpace (c : Char) : Bool :=
  c = ' ' || c = '\t' || c = '\n' || c = '\r' || c = '\x0b' || c = '\x0c'

/-- Strip leading and trailing whitespace, modelling `str.strip()`. -/
def pyStrip (l : List Char) : List Char :=
  ((l.dropWhile pyIsSpace).reverse.dropWhile pyIsSpace).reverse

/-- Python `str.lower` restricted to the ASCII and Cyrillic repertoire
the scraper manipulates (uppercase A-Z, А-Я and Ё). -/
def pyLowerChar (c : Char) : Char :=
  if 'A' ≤ c && c ≤ 'Z' then Char.ofNat (c.toNat + 32)
  else if 0x410 ≤ c.toNat && c.toNat ≤ 0x42F then Char.ofNat (c.toNat + 0x20)
  else if c.toNat = 0x401 then Char.ofNat 0x451
  else c

/-- The regex word class `\w` of `re.sub` (Unicode alphanumerics plus
underscore), restricted to the ASCII and Cyrillic repertoire. -/
def pyIsWordChar (c : Char) : Bool :=
  c.isAlphanum || c = '_' || (0x410 ≤ c.toNat && c.toNat ≤ 0x44F)
    || c.toNat = 0x401 || c.toNat = 0x451

/-- Embedding of `sanitize_filename_component` (line 150):
`re.sub(r"[^\w\-]", "_", value.strip().lower())` — strip, lowercase, then
replace every character that is neither a word character nor a hyphen by
an underscore (the pattern is a single-character class, so the
substitution is a character map). -/
def sanitize_filename_component (value : String) : String :=
  String.mk (((pyStrip value.data).map pyLowerChar).map
    (fun c => if pyIsWordChar c || c = '-' then c else '_'))

/-- Modelled from the spec claim for comparison: "lowercases the value and
replaces every character that is not a word character or a hyphen with an
underscore" — the same substitution but with no leading/trailing strip. -/
def claimed_sanitize (value : String) : String :=
  String.mk ((value.data.map pyLowerChar).map
    (fun c => if pyIsWordChar c || c = '-' then c else '_'))

-- === PAGINATION (main fetch-all loop, lines 255-276) ===

/-- Embedding of the `while True` fetch-all loop of `main` (line 262):
fetch the current page, stop when the result is empty (counting that final
fetch), otherwise extend the accumulator and move to the next page. The
loop has no bound in the source; `fuel` makes it total, `none` standing
for a run that has not terminated within `fuel` fetches. The second
component of the result counts the fetch calls issued. -/
def fetch_all_loop {α : Type} (fetch : Nat → List α) : Nat → Nat → List α → Option (List α × Nat)
  | 0, _, _ => none
  | fuel + 1, page, acc =>
    let result := fetch page
    if result.isEmpty then some (acc, 1)
    else
      match fetch_all_loop fetch fuel (page + 1) (acc ++ result) with
      | none => none
      | some (products, calls) => some (products, calls + 1)

/-- Fetch-all mode: start the loop at page 1 with an empty accumulator. -/
def fetch_all {α : Type} (fetch : Nat → List α) (fuel : Nat) : Option (List α × Nat) :=
  fetch_all_loop fetch fuel 1 []

/-- The concatenation `fetch start ++ ... ++ fetch (start + n - 1)` of `n`
consecutive pages, in fetch order. -/
def concatPages {α : Type} (fetch : Nat → List α) : Nat → Nat → List α
  | _, 0 => []
  | start, n + 1 => fetch start ++ concatPages fetch (start + 1) n

-- === MAIN (lines 222-292) ===

/-- Outcome of a run of `main` past argument parsing: the two fatal stops,
divergence of the unbounded fetch-all loop, or a persisted output. -/
inductive RunOutcome (α : Type) where
  | cityNotFound : RunOutcome α
  | fuelOut : RunOutcome α
  | noProducts : RunOutcome α
  | saved (filename : String) (products : List α) : RunOutcome α

/-- The output persisted by a run: `save_products` is invoked exactly for
the `saved` outcome. -/
def writtenOutput {α : Type} : RunOutcome α → Option (String × List α)
  | RunOutcome.saved f ps => some (f, ps)
  | _ => none

/-- Embedding of the product phase of `main` (lines 227-292): stop with an
error if the resolved city uuid is falsy (line 228); otherwise fetch
products (fetch-all loop, or a single page at `pageArg`), stop with an
error if the accumulation is empty (line 284), and only otherwise invoke
the persistence writer. `pageResults` gives the value `fetch_products`
returns for each page (already `[]` on fetch failure). The metadata
refresh step only touches the caches and is elided. -/
def runMain {α : Type} (city_uuid : Option String) (fetch_all_flag : Bool) (pageArg : Nat)
    (pageResults : Nat → List α) (fuel : Nat) (filename : String) : RunOutcome α :=
  if !truthyOptStr city_uuid then RunOutcome.cityNotFound
  else
    let fetched : Option (List α × Nat) :=
      if fetch_all_flag then fetch_all pageResults fuel else some (pageResults pageArg, 1)
    match fetched with
    | none => RunOutcome.fuelOut
    | some (products, _) =>
      if products.isEmpty then RunOutcome.noProducts
      else RunOutcome.saved filename products

-- === PERSISTENCE WRITER (save_products, lines 189-199) ===

/-- Decimal digit characters for serializing numbers. -/
def digitChar : Nat → Char
  | 0 => '0' | 1 => '1' | 2 => '2' | 3 => '3' | 4 => '4'
  | 5 => '5' | 6 => '6' | 7 => '7' | 8 => '8' | 9 => '9'
  | _ => '0'

/-- Decimal digits of a natural number, least significant first. -/
def natToRevDigits (n : Nat) : List Char :=
  if _h : n < 10 then [digitChar n]
  else digitChar (n % 10) :: natToRevDigits (n / 10)
decreasing_by exact Nat.div_lt_self (by omega) (by omega)

/-- Decimal representation of an integer, as Python prints it. -/
def intChars (n : Int) : List Char :=
  if n < 0 then '-' :: (natToRevDigits n.natAbs).reverse
  else (natToRevDigits n.toNat).reverse

/-- JSON string escaping as performed by `json.dumps(..., ensure_ascii=False)`:
quote and backslash are escaped, control characters below 0x20 are escaped
by name or as a `\u00XX` sequence, everything else (including non-ASCII)
is kept raw. -/
def escapeChar (c : Char) : List Char :=
  if c = '"' then ['\\', '"']
  else if c = '\\' then ['\\', '\\']
  else if c = '\n' then ['\\', 'n']
  else if c = '\r' then ['\\', 'r']
  else if c = '\t' then ['\\', 't']
  else if c = '\x08' then ['\\', 'b']
  else if c = '\x0c' then ['\\', 'f']
  else if c.toNat < 32 then ['\\', 'u', '0', '0', digitChar (c.toNat / 16), digitChar (c.toNat % 16)]
  else [c]

/-- Interleave a separator between serialized items, as `", ".join` does. -/
def joinSep (sep : List Char) : List (List Char) → List Char
  | [] => []
  | [x] => x
  | x :: xs => x ++ sep ++ joinSep sep xs

mutual

/-- Embedding of `json.dumps(product, ensure_ascii=False)` (line 197), at
the character-list level, with the default separators `", "` and `": "`. -/
def dumpsC : Json → List Char
  | Json.null => "null".data
  | Json.bool b => if b then "true".data else "false".data
  | Json.num n => intChars n
  | Json.str s => '"' :: (s.data.flatMap escapeChar ++ ['"'])
  | Json.arr items => '[' :: (joinSep ", ".data (dumpsCList items) ++ [']'])
  | Json.obj fields => Char.ofNat 123 :: (joinSep ", ".data (dumpsCFields fields) ++ [Char.ofNat 125])

/-- Serializations of the items of a JSON array, in order. -/
def dumpsCList : List Json → List (List Char)
  | [] => []
  | j :: js => dumpsC j :: dumpsCList js

/-- Serializations of the `"key": value` fields of a JSON object, in order. -/
def dumpsCFields : List (String × Json) → List (List Char)
  | [] => []
  | (k, v) :: kvs => (dumpsC (Json.str k) ++ ": ".data ++ dumpsC v) :: dumpsCFields kvs

end

/-- The characters written to the output file by `save_products`
(lines 195-197): for each product its JSON serialization followed by a
newline, concatenated in order. -/
def ndjsonChars (products : List Json) : List Char :=
  products.flatMap (fun p => dumpsC p ++ ['\n'])

/-- Split a character stream into its newline-separated lines (a stream
with `n` newlines yields `n + 1` chunks, the last one empty for a stream
ending in a newline). -/
def splitOnNl : List Char → List (List Char)
  | [] => [[]]
  | c :: cs =>
    if c = '\n' then [] :: splitOnNl cs
    else
      match splitOnNl cs with
      | [] => [[c]]
      | l :: ls => (c :: l) :: ls

/-- The file system `save_products` acts on: files keyed by their path
(as a list of components, the last one the file name) and the set of
existing directories (each also a component list). -/
structure FileSystem where
  files : List String → Option String
  dirs : List (List String)

/-- The proper ancestor directories of a path, which
`path.parent.mkdir(parents=True, exist_ok=True)` guarantees to exist. -/
def pathParents (path : List String) : List (List String) :=
  (List.range path.dropLast.length).map (fun i => path.dropLast.take (i + 1))

/-- Embedding of `save_products` (line 189): create the missing parent
directories of `path`, then open the destination in mode `"w"` (full
overwrite, no append) and write one JSON object per product, each followed
by a newline, in list order. -/
def save_products (products : List Json) (path : List String) (fs : FileSystem) : FileSystem :=
  { dirs := pathParents path ++ fs.dirs,
    files := fun p => if p = path then some (String.mk (ndjsonChars products)) else fs.files p }

-- === CONCRETE INPUTS USED BY COUNTEREXAMPLES ===

/-- The category-cache content of a successful metadata rebuild, as seen
through its lookup on one slug, for stating how `update_filter_cache`
changes the category cache. -/
def okCategoryLookup (r : Except String CacheState) (slug : String) : Option (Option Json) :=
  match r with
  | Except.ok st => st.categoryCache.map (fun t => t slug)
  | Except.error _ => none

/-- A non-empty category cache predating a metadata rebuild. -/
def priorCategories : CategoryTable :=
  fun s => if s = "vino" then some (Json.obj [("slug", Json.str "vino")]) else none

/-- A cache state holding `priorCategories` before a metadata rebuild. -/
def priorState : CacheState :=
  { filterCache := none, categoryCache := some priorCategories }

/-- Two facets sharing the code `"x"`, each with one enabled value: the
second facet's dict assignment overwrites the first facet's entry. -/
def dupCodeFacets : List Facet :=
  [⟨some "x", [⟨"A", "a", true⟩]⟩, ⟨some "x", [⟨"B", "b", true⟩]⟩]

-- ===================================================================
-- THEOREMS
-- ===================================================================

-- === C7: cache round-trip ===

/-- C7. Cache round-trip: for every JSON-representable document, saving it
under a key with `save_json` and then loading it from the same key with
`load_json` yields a structurally identical document; loading a key whose
backing file does not exist returns the absence value. -/
theorem cache_roundtrip :
    (∀ (store : Store) (path : String) (data : Json),
        load_json (save_json store path data) path = some data)
    ∧ (∀ (store : Store) (path : String),
        store path = none → load_json store path = none) := by
  constructor
  · intro store path data
    simp [load_json, save_json]
  · intro store path h
    exact h

/-- Witness for C7 at a concrete store, path and document. -/
theorem cache_roundtrip_witness :
    load_json (save_json (fun _ => none) "cache/cities.json" (Json.str "d")) "cache/cities.json"
      = some (Json.str "d")
    ∧ load_json (fun _ => none) "cache/cities.json" = none :=
  ⟨cache_roundtrip.1 (fun _ => none) "cache/cities.json" (Json.str "d"),
   cache_roundtrip.2 (fun _ => none) "cache/cities.json" rfl⟩

-- === C10: update_filter_cache raises on an absent facet fetch ===

/-- C10. `update_filter_cache` is not total under fetch failure: when the
facet fetch returns the absence sentinel, the source calls `.get` on
`None` and raises `AttributeError` instead of recovering with the absence
signal, whatever the product fetch outcome and the prior caches are. -/
theorem update_filter_cache_raises_on_absent_facets :
    ∀ (productsResp : Option Json) (st : CacheState),
      update_filter_cache none productsResp st = Except.error "AttributeError" :=
  fun _ _ => rfl

-- === C5: partial-failure behaviour of the metadata rebuild ===

/-- C5 counterexample. With a non-empty prior category cache, a succeeded
facet fetch and a failed product-sample fetch, the rebuilt state's
category cache no longer contains the prior entry at `"vino"`: it has been
overwritten (with an empty table), not left unchanged as claimed. -/
theorem update_filter_cache_category_overwritten_cex :
    okCategoryLookup (update_filter_cache (some ⟨[]⟩) none priorState) "vino" = some none
    ∧ okCategoryLookup (Except.ok priorState) "vino"
        = some (some (Json.obj [("slug", Json.str "vino")]))
    ∧ some (none : Option Json) ≠ some (some (Json.obj [("slug", Json.str "vino")])) := by
  refine ⟨rfl, rfl, ?_⟩
  simp

/-- C5 (amended). If the product-sample fetch fails after the facet fetch
has succeeded, both caches are still written unconditionally: the filter
cache is updated and the category cache is overwritten with the empty
table derived from the empty product list (it is not left unchanged). -/
theorem update_filter_cache_partial_failure_amended :
    ∀ (resp : FacetsResponse) (st : CacheState),
      update_filter_cache (some resp) none st =
        Except.ok { filterCache := some (extract_filters resp.facets),
                    categoryCache := some (fun _ => none) } :=
  fun _ _ => rfl

-- === C4: city resolver tie-break ===

/-- The fold underlying `lastUuidFor`, with a general accumulator. -/
theorem lastUuidFor_fold_acc (entries : List CityEntry) :
    ∀ (acc : Option String) (n : String),
      entries.foldl (fun acc e => if e.name = n then some e.uuid else acc) acc =
        match lastUuidFor entries n with
        | some u => some u
        | none => acc := by
  induction entries with
  | nil => intro acc n; simp [lastUuidFor]
  | cons e rest ih =>
    intro acc n
    have h2 : lastUuidFor (e :: rest) n =
        match lastUuidFor rest n with
        | some u => some u
        | none => if e.name = n then some e.uuid else none := by
      simp only [lastUuidFor, List.foldl_cons]
      exact ih (if e.name = n then some e.uuid else none) n
    simp only [List.foldl_cons]
    rw [ih, h2]
    cases hl : lastUuidFor rest n with
    | none => by_cases he : e.name = n <;> simp [he]
    | some u => rfl

/-- Lookup in the fold of overwriting insertions: the last entry with the
looked-up name wins, and absent names fall through to the initial table. -/
theorem buildCityTable_fold_at (entries : List CityEntry) :
    ∀ (d : String → Option String) (n : String),
      (entries.foldl (fun d c => fupdate d c.name c.uuid) d) n =
        match lastUuidFor entries n with
        | some u => some u
        | none => d n := by
  induction entries with
  | nil => intro d n; simp [lastUuidFor]
  | cons e rest ih =>
    intro d n
    have h2 : lastUuidFor (e :: rest) n =
        match lastUuidFor rest n with
        | some u => some u
        | none => if e.name = n then some e.uuid else none := by
      simp only [lastUuidFor, List.foldl_cons]
      exact lastUuidFor_fold_acc rest (if e.name = n then some e.uuid else none) n
    simp only [List.foldl_cons]
    rw [ih, h2]
    cases hl : lastUuidFor rest n with
    | none =>
      by_cases he : e.name = n
      · simp [fupdate, he]
      · have hn : n ≠ e.name := fun x => he x.symm
        simp [fupdate, he, hn]
    | some u => rfl

/-- C4. When the city table is rebuilt from a listing, accented entries
are inserted first and identically-named default-list entries overwrite
them: a name whose last default-list occurrence carries uuid `u` resolves
to `u` whatever the accented sub-list says; in particular, for a listing
holding the same name in both sub-lists with different ids,
`get_city_uuid` returns the default sub-list's id. -/
theorem city_tiebreak_default_wins :
    (∀ (accented results : List CityEntry) (n u : String),
        lastUuidFor results n = some u →
        buildCityTable (accented ++ results) n = some u)
    ∧ (∀ (name u1 u2 : String),
        get_city_uuid none (some ⟨[⟨name, u1⟩], [⟨name, u2⟩]⟩) name = some u2) := by
  constructor
  · intro accented results n u h
    show ((accented ++ results).foldl (fun d c => fupdate d c.name c.uuid)
      (fun _ => none)) n = some u
    rw [List.foldl_append, buildCityTable_fold_at results _ n, h]
  · intro name u1 u2
    simp [get_city_uuid, buildCityTable, fupdate]

/-- Witness for C4 at a concrete listing holding the same name in both
sub-lists with different ids. -/
theorem city_tiebreak_default_wins_witness :
    buildCityTable ([⟨"Краснодар", "acc-1"⟩] ++ [⟨"Краснодар", "res-2"⟩]) "Краснодар"
      = some "res-2" :=
  city_tiebreak_default_wins.1 [⟨"Краснодар", "acc-1"⟩] [⟨"Краснодар", "res-2"⟩]
    "Краснодар" "res-2" (by decide)

-- === C1: fetch-all pagination ===

/-- The fetch-all loop from an arbitrary start page: when the `n` pages
from `start` on are non-empty and page `start + n` is empty, the loop
appends those `n` pages to the accumulator in fetch order and issues
exactly `n + 1` fetches. -/
theorem fetch_all_loop_spec {α : Type} (fetch : Nat → List α) :
    ∀ (n : Nat), ∀ (start : Nat) (acc : List α) (fuel : Nat),
      n < fuel →
      (∀ p, p < n → fetch (start + p) ≠ []) →
      fetch (start + n) = [] →
      fetch_all_loop fetch fuel start acc = some (acc ++ concatPages fetch start n, n + 1) := by
  intro n
  induction n with
  | zero =>
    intro start acc fuel hfuel hne hend
    rcases fuel with _ | f
    · omega
    · rw [Nat.add_zero] at hend
      simp [fetch_all_loop, hend, concatPages]
  | succ n ih =>
    intro start acc fuel hfuel hne hend
    rcases fuel with _ | f
    · omega
    · have h0 : fetch start ≠ [] := by
        have := hne 0 (by omega)
        rwa [Nat.add_zero] at this
      have hne' : ∀ p, p < n → fetch (start + 1 + p) ≠ [] := by
        intro p hp
        have := hne (p + 1) (by omega)
        rwa [show start + (p + 1) = start + 1 + p by omega] at this
      have hend' : fetch (start + 1 + n) = [] := by
        rwa [show start + (n + 1) = start + 1 + n by omega] at hend
      have hrec := ih (start + 1) (acc ++ fetch start) f (by omega) hne' hend'
      simp only [fetch_all_loop, List.isEmpty_eq_true, h0, if_false, hrec]
      simp [concatPages, List.append_assoc]

/-- C1. Fetch-all pagination starts at page 1, issues one fetch per page
with increasing page numbers, appends each non-empty page's results to the
accumulator in fetch order, and stops at the first empty fetch result: if
pages 1 to `n` are non-empty and page `n + 1` is empty, the result is the
concatenation of pages 1 to `n` and exactly `n + 1` fetch calls occur.
In particular, for the mocked sequence of 2 items, then 1 item, then
empty, exactly 3 fetch calls occur and the accumulated count is 3. -/
theorem fetch_all_pagination :
    (∀ (α : Type) (fetch : Nat → List α) (n fuel : Nat),
        n < fuel →
        (∀ p, p < n → fetch (p + 1) ≠ []) →
        fetch (n + 1) = [] →
        fetch_all fetch fuel = some (concatPages fetch 1 n, n + 1))
    ∧ fetch_all (fun p => if p = 1 then [100, 200] else if p = 2 then [300] else []) 10
        = some ([100, 200, 300], 3)
    ∧ ([100, 200, 300] : List Nat).length = 3 := by
  refine ⟨?_, rfl, rfl⟩
  intro α fetch n fuel hfuel hne hend
  have hne' : ∀ p, p < n → fetch (1 + p) ≠ [] := by
    intro p hp
    have := hne p hp
    rwa [Nat.add_comm 1 p]
  have hend' : fetch (1 + n) = [] := by rwa [Nat.add_comm 1 n]
  exact fetch_all_loop_spec fetch n 1 [] fuel hfuel hne' hend'

/-- Witness for C1: the general pagination statement applied to a concrete
two-page sequence. -/
theorem fetch_all_pagination_witness :
    fetch_all (fun p => if p ≤ 2 then [p] else []) 9
      = some (concatPages (fun p => if p ≤ 2 then [p] else []) 1 2, 3) :=
  fetch_all_pagination.1 Nat (fun p => if p ≤ 2 then [p] else []) 2 9
    (by omega) (by decide) (by decide)

-- === C6: fatal conditions stop the run before persisting output ===

/-- C6. On a fatal condition the run stops without persisting any output:
a falsy city resolution ends the run as `cityNotFound`, an empty final
product accumulation (single-page mode with an empty page, or fetch-all
mode whose first page is already empty) ends it as `noProducts`, and
neither outcome carries a written output, so the persistence writer is
never reached. -/
theorem main_fatal_no_output :
    (∀ (α : Type) (flag : Bool) (pageArg : Nat) (pr : Nat → List α) (fuel : Nat) (fn : String),
        runMain none flag pageArg pr fuel fn = RunOutcome.cityNotFound
        ∧ runMain (some "") flag pageArg pr fuel fn = RunOutcome.cityNotFound)
    ∧ (∀ (α : Type) (u : String) (pageArg : Nat) (pr : Nat → List α) (fuel : Nat) (fn : String),
        u ≠ "" → pr pageArg = [] →
        runMain (some u) false pageArg pr fuel fn = RunOutcome.noProducts)
    ∧ (∀ (α : Type) (u : String) (pageArg : Nat) (pr : Nat → List α) (fuel : Nat) (fn : String),
        u ≠ "" → pr 1 = [] → 1 ≤ fuel →
        runMain (some u) true pageArg pr fuel fn = RunOutcome.noProducts)
    ∧ (∀ (α : Type) (o : RunOutcome α),
        o = RunOutcome.cityNotFound ∨ o = RunOutcome.noProducts →
        writtenOutput o = none) := by
  refine ⟨?_, ?_, ?_, ?_⟩
  · intro α flag pageArg pr fuel fn
    constructor <;> simp [runMain, truthyOptStr]
  · intro α u pageArg pr fuel fn hu hpr
    simp [runMain, truthyOptStr, hu, hpr]
  · intro α u pageArg pr fuel fn hu hpr hfuel
    rcases fuel with _ | f
    · omega
    · simp [runMain, truthyOptStr, hu, fetch_all, fetch_all_loop, hpr]
  · intro α o h
    rcases h with h | h <;> subst h <;> rfl

/-- Witness for C6 at concrete runs: a missing city, an empty single page
and an empty first fetch-all page, none of which writes output. -/
theorem main_fatal_no_output_witness :
    runMain (some "u") false 1 (fun _ => ([] : List Nat)) 5 "out.ndjson" = RunOutcome.noProducts
    ∧ runMain (some "u") true 1 (fun _ => ([] : List Nat)) 5 "out.ndjson" = RunOutcome.noProducts
    ∧ writtenOutput (RunOutcome.noProducts (α := Nat)) = none :=
  ⟨main_fatal_no_output.2.1 Nat "u" 1 (fun _ => []) 5 "out.ndjson" (by decide) rfl,
   main_fatal_no_output.2.2.1 Nat "u" 1 (fun _ => []) 5 "out.ndjson" (by decide) rfl (by omega),
   main_fatal_no_output.2.2.2 Nat RunOutcome.noProducts (Or.inr rfl)⟩

-- === C8: filename-component sanitization ===

/-- C8 counterexample. The claimed rule (lowercase, then replace non-word
non-hyphen characters) disagrees with the source on an input with leading
whitespace: the source strips it first, the claimed rule would map the
space to an underscore. -/
theorem sanitize_claim_counterexample :
    sanitize_filename_component " a" = "a"
    ∧ claimed_sanitize " a" = "_a"
    ∧ sanitize_filename_component " a" ≠ claimed_sanitize " a" := by
  refine ⟨rfl, rfl, ?_⟩
  decide

/-- C8 (amended). The sanitizer first strips leading and trailing
whitespace, then lowercases the value and replaces every character that is
not a word character or a hyphen with an underscore; in particular
`"Красный/Белый"` maps to `"красный_белый"`, and every output character is
a word character or a hyphen. -/
theorem sanitize_amended :
    (∀ (value : String),
        sanitize_filename_component value = claimed_sanitize (String.mk (pyStrip value.data)))
    ∧ sanitize_filename_component "Красный/Белый" = "красный_белый"
    ∧ (∀ (value : String) (c : Char),
        c ∈ (sanitize_filename_component value).data →
        pyIsWordChar c = true ∨ c = '-') := by
  refine ⟨fun value => rfl, by decide, ?_⟩
  intro value c hc
  have hc' : c ∈ ((pyStrip value.data).map pyLowerChar).map
      (fun c => if pyIsWordChar c || c = '-' then c else '_') := hc
  rcases List.mem_map.mp hc' with ⟨c0, _, hmap⟩
  by_cases h : pyIsWordChar c0 || c0 = '-'
  · rw [if_pos h] at hmap
    subst hmap
    rcases (Bool.or_eq_true _ _).mp h with h | h
    · exact Or.inl h
    · exact Or.inr (by simpa using h)
  · rw [if_neg h] at hmap
    subst hmap
    exact Or.inl (by decide)

/-- Witness for C8: the character-class property applied at a concrete
input and output character. -/
theorem sanitize_amended_witness :
    pyIsWordChar 'a' = true ∨ 'a' = '-' :=
  sanitize_amended.2.2 "a-b" 'a' (by decide)

-- === C3: filter extraction ===

/-- Soundness of the `extract_filters` fold: an entry of the result table
either was already in the initial table or is the enabled-value projection
of some facet of the list with that (truthy) code and a non-empty values
list. -/
theorem extract_fold_sound :
    ∀ (facets : List Facet) (t : FilterTable) (c : String) (vs : List (String × String)),
      (facets.foldl extractStep t) c = some vs →
      t c = some vs
      ∨ ∃ facet ∈ facets, facet.code = some c ∧ c ≠ "" ∧ facet.values ≠ []
          ∧ vs = enabledPairs facet.values := by
  intro facets
  induction facets with
  | nil => intro t c vs h; exact Or.inl h
  | cons f rest ih =>
    intro t c vs h
    rcases ih (extractStep t f) c vs h with h' | ⟨g, hg, hrest⟩
    · unfold extractStep at h'
      by_cases hcond : truthyOptStr f.code && !f.values.isEmpty
      · rw [if_pos hcond] at h'
        rcases (Bool.and_eq_true _ _).mp hcond with ⟨htr, hne⟩
        rcases hcode : f.code with _ | s
        · rw [hcode] at htr; simp [truthyOptStr] at htr
        · unfold fupdate at h'
          by_cases hkey : c = f.code.getD ""
          · rw [if_pos hkey] at h'
            refine Or.inr ⟨f, List.mem_cons_self f rest, ?_, ?_, ?_, ?_⟩
            · rw [hcode, hkey, hcode]; rfl
            · rw [hkey, hcode]
              intro he
              rw [hcode] at htr
              simp [truthyOptStr] at htr
              exact htr he
            · intro he
              rw [he] at hne
              simp at hne
            · exact (Option.some.injEq _ _).mp h'.symm
          · rw [if_neg hkey] at h'
            exact Or.inl h'
      · rw [if_neg hcond] at h'
        exact Or.inl h'
    · exact Or.inr ⟨g, List.mem_cons_of_mem f hg, hrest⟩

/-- The `extract_filters` fold leaves a code untouched when no facet of
the list writes to it. -/
theorem extract_fold_preserve :
    ∀ (facets : List Facet) (t : FilterTable) (c : String),
      (∀ f ∈ facets, ¬(truthyOptStr f.code = true ∧ f.code.getD "" = c)) →
      (facets.foldl extractStep t) c = t c := by
  intro facets
  induction facets with
  | nil => intro t c _; rfl
  | cons f rest ih =>
    intro t c hnone
    have hstep : extractStep t f c = t c := by
      unfold extractStep
      by_cases hcond : truthyOptStr f.code && !f.values.isEmpty
      · rw [if_pos hcond]
        rcases (Bool.and_eq_true _ _).mp hcond with ⟨htr, _⟩
        have hkey : f.code.getD "" ≠ c :=
          fun he => hnone f (List.mem_cons_self f rest) ⟨htr, he⟩
        unfold fupdate
        rw [if_neg (fun he => hkey he.symm)]
      · rw [if_neg hcond]
    calc (rest.foldl extractStep (extractStep t f)) c
        = extractStep t f c := ih _ c (fun g hg => hnone g (List.mem_cons_of_mem f hg))
      _ = t c := hstep

/-- Completeness of the `extract_filters` fold under pairwise-distinct
facet codes: a facet with a truthy code and some values ends up with
exactly its enabled-value projection stored under its code. -/
theorem extract_fold_complete :
    ∀ (facets : List Facet) (t : FilterTable) (facet : Facet) (c : String),
      (facets.filterMap Facet.code).Nodup →
      facet ∈ facets → facet.code = some c → c ≠ "" → facet.values ≠ [] →
      (facets.foldl extractStep t) c = some (enabledPairs facet.values) := by
  intro facets
  induction facets with
  | nil => intro t facet c _ hmem; exact absurd hmem (List.not_mem_nil facet)
  | cons g rest ih =>
    intro t facet c hnodup hmem hcode hc hvals
    have hnodup' : (rest.filterMap Facet.code).Nodup := by
      rcases hg : g.code with _ | s
      · rwa [List.filterMap_cons_none hg] at hnodup
      · rw [List.filterMap_cons_some hg] at hnodup
        exact hnodup.of_cons
    rcases List.mem_cons.mp hmem with rfl | hmem'
    · have htr : truthyOptStr facet.code = true := by
        rw [hcode]; simp [truthyOptStr]; exact hc
      have hkey : facet.code.getD "" = c := by rw [hcode]; rfl
      have hstep : extractStep t facet c = some (enabledPairs facet.values) := by
        unfold extractStep
        by_cases hcond : truthyOptStr facet.code && !facet.values.isEmpty
        · rw [if_pos hcond]
          unfold fupdate
          rw [if_pos hkey.symm]
        · exfalso
          apply hcond
          rw [htr, Bool.true_and]
          rcases hv : facet.values with _ | ⟨a, l⟩
          · exact absurd hv hvals
          · simp
      have hrest : ∀ f ∈ rest, ¬(truthyOptStr f.code = true ∧ f.code.getD "" = c) := by
        intro f hf ⟨htrf, hkeyf⟩
        rcases hfc : f.code with _ | s
        · rw [hfc] at htrf; simp [truthyOptStr] at htrf
        · have hs : s = c := by rw [hfc] at hkeyf; exact hkeyf
          have hcmem : c ∈ rest.filterMap Facet.code := by
            rw [← hs]
            exact List.mem_filterMap.mpr ⟨f, hf, hfc⟩
          rw [List.filterMap_cons_some hcode] at hnodup
          exact (List.nodup_cons.mp hnodup).1 hcmem
      rw [List.foldl_cons, extract_fold_preserve rest _ c hrest, hstep]
    · rw [List.foldl_cons]
      exact ih _ facet c hnodup' hmem' hcode hc hvals

/-- C3 counterexample. Two facets share the code `"x"`; both hold an
enabled value, yet the table keeps only the second facet's value: the
first facet's enabled value `("A", "a")` is absent, refuting the
"included if and only if enabled" claim on this input. -/
theorem extract_filters_iff_counterexample :
    dupCodeFacets.head? = some ⟨some "x", [⟨"A", "a", true⟩]⟩
    ∧ extract_filters dupCodeFacets "x" = some [("B", "b")]
    ∧ (([("B", "b")] : List (String × String)).contains ("A", "a")) = false :=
  ⟨rfl, rfl, rfl⟩

/-- C3 (amended). Every value in the filter table comes from a facet of
the input where it is marked enabled; conversely, when facet codes are
pairwise distinct (duplicate-coded facets overwrite one another, keeping
only the last), every enabled value of a kept facet is in the table; and
a table entry exists for a code only if some facet carries that (truthy)
code with a non-empty values list — facets with no code or no values
create no entry. -/
theorem extract_filters_enabled_amended :
    (∀ (facets : List Facet) (c : String) (vs : List (String × String)) (p : String × String),
        extract_filters facets c = some vs → p ∈ vs →
        ∃ facet ∈ facets, facet.code = some c
          ∧ ∃ v ∈ facet.values, v.enabled = true ∧ (v.name, v.slug) = p)
    ∧ (∀ (facets : List Facet) (facet : Facet) (c : String) (v : FacetValue),
        (facets.filterMap Facet.code).Nodup →
        facet ∈ facets → facet.code = some c → c ≠ "" →
        v ∈ facet.values → v.enabled = true →
        ((extract_filters facets c).getD []).contains (v.name, v.slug) = true)
    ∧ (∀ (facets : List Facet) (c : String),
        extract_filters facets c ≠ none →
        ∃ facet ∈ facets, facet.code = some c ∧ c ≠ "" ∧ facet.values ≠ []) := by
  refine ⟨?_, ?_, ?_⟩
  · intro facets c vs p htab hp
    rcases extract_fold_sound facets _ c vs htab with h | ⟨facet, hmem, hcode, _, _, hvs⟩
    · exact absurd h (by simp)
    · refine ⟨facet, hmem, hcode, ?_⟩
      rw [hvs] at hp
      rcases List.mem_map.mp hp with ⟨v, hv, hvp⟩
      exact ⟨v, (List.mem_filter.mp hv).1, (List.mem_filter.mp hv).2, hvp⟩
  · intro facets facet c v hnodup hmem hcode hc hv henabled
    have hvals : facet.values ≠ [] := fun he => by rw [he] at hv; exact List.not_mem_nil v hv
    rw [show extract_filters facets = facets.foldl extractStep (fun _ => none) from rfl,
      extract_fold_complete facets _ facet c hnodup hmem hcode hc hvals]
    simp only [Option.getD_some, List.contains_eq_any_beq, List.any_eq_true]
    refine ⟨(v.name, v.slug), ?_, by simp⟩
    exact List.mem_map.mpr ⟨v, List.mem_filter.mpr ⟨hv, henabled⟩, rfl⟩
  · intro facets c htab
    rcases h : extract_filters facets c with _ | vs
    · exact absurd h htab
    · rcases extract_fold_sound facets _ c vs h with h' | ⟨facet, hmem, hcode, hc, hvals, _⟩
      · exact absurd h' (by simp)
      · exact ⟨facet, hmem, hcode, hc, hvals⟩

/-- Witness for C3: the completeness part applied to one concrete facet
with an enabled and a disabled value. -/
theorem extract_filters_enabled_amended_witness :
    ((extract_filters [⟨some "cvet", [⟨"Красное", "krasnoe", true⟩, ⟨"Белое", "beloe", false⟩]⟩]
        "cvet").getD []).contains ("Красное", "krasnoe") = true :=
  extract_filters_enabled_amended.2.1
    [⟨some "cvet", [⟨"Красное", "krasnoe", true⟩, ⟨"Белое", "beloe", false⟩]⟩]
    ⟨some "cvet", [⟨"Красное", "krasnoe", true⟩, ⟨"Белое", "beloe", false⟩]⟩
    "cvet" ⟨"Красное", "krasnoe", true⟩
    (by decide) (List.mem_cons_self _ _) rfl (by decide)
    (List.mem_cons_self _ _) rfl

-- === C2: query-parameter construction ===

/-- Strings with equal character data are equal. -/
theorem string_data_inj {a b : String} (h : a.data = b.data) : a = b := by
  cases a
  cases b
  exact congrArg String.mk h

/-- The character data of an `options` key, exposed as list appends. -/
theorem optionsKey_data (c : String) :
    (optionsKey c).data = ("options[".data ++ c.data) ++ "][]".data := by
  show (("options[" ++ c) ++ "][]").data = _
  rw [String.data_append, String.data_append]

/-- An `options` key never collides with a key that does not start with
the character `o`. -/
theorem optionsKey_ne_of_head (c : String) (k : String)
    (hk : k.data.head? ≠ some 'o') : optionsKey c ≠ k := by
  intro h
  apply hk
  rw [← h, optionsKey_data]
  rfl

/-- Distinct filter codes produce distinct `options` keys. -/
theorem optionsKey_inj {a b : String} (h : optionsKey a = optionsKey b) : a = b := by
  have h1 := congrArg String.data h
  rw [optionsKey_data, optionsKey_data] at h1
  have h2 := List.append_cancel_right h1
  have h3 := List.append_cancel_left h2
  exact string_data_inj h3

/-- `setdefault`-append leaves every other key unchanged. -/
theorem setdefaultAppend_ne (ps : ParamSet) (key val q : String) (h : q ≠ key) :
    setdefaultAppend ps key val q = ps q := by
  unfold setdefaultAppend
  rw [if_neg h]

/-- The inner filter loop leaves every other key unchanged. -/
theorem inner_fold_ne (vals : List String) :
    ∀ (ps : ParamSet) (key q : String), q ≠ key →
      (vals.foldl (fun ps2 val => setdefaultAppend ps2 key val) ps) q = ps q := by
  induction vals with
  | nil => intro ps key q _; rfl
  | cons v vs ih =>
    intro ps key q h
    rw [List.foldl_cons, ih _ key q h, setdefaultAppend_ne ps key v q h]

/-- The inner filter loop extends an existing repeated entry in order. -/
theorem inner_fold_list (vals : List String) :
    ∀ (ps : ParamSet) (key : String) (acc : List String),
      ps key = some (PVal.list acc) →
      (vals.foldl (fun ps2 val => setdefaultAppend ps2 key val) ps) key
        = some (PVal.list (acc ++ vals)) := by
  induction vals with
  | nil => intro ps key acc h; simpa using h
  | cons v vs ih =>
    intro ps key acc h
    rw [List.foldl_cons]
    have hstep : setdefaultAppend ps key v key = some (PVal.list (acc ++ [v])) := by
      unfold setdefaultAppend
      rw [if_pos rfl, h]
    rw [ih _ key (acc ++ [v]) hstep]
    simp

/-- The inner filter loop on a fresh key stores exactly the selected
slugs, one repeated entry per slug, in order. -/
theorem inner_fold_from_none (vals : List String) (ps : ParamSet) (key : String)
    (h : ps key = none) (hne : vals ≠ []) :
    (vals.foldl (fun ps2 val => setdefaultAppend ps2 key val) ps) key
      = some (PVal.list vals) := by
  rcases vals with _ | ⟨v, vs⟩
  · exact absurd rfl hne
  · rw [List.foldl_cons]
    have hstep : setdefaultAppend ps key v key = some (PVal.list [v]) := by
      unfold setdefaultAppend
      rw [if_pos rfl, h]
    rw [inner_fold_list vs _ key [v] hstep]
    rfl

/-- The filter loop leaves keys owned by no listed filter code unchanged. -/
theorem outer_fold_preserve (filters : List (String × List String)) :
    ∀ (ps : ParamSet) (q : String),
      (∀ cv ∈ filters, optionsKey cv.1 ≠ q) →
      (filters.foldl addFilterOptions ps) q = ps q := by
  induction filters with
  | nil => intro ps q _; rfl
  | cons cv rest ih =>
    intro ps q h
    rw [List.foldl_cons, ih _ q (fun x hx => h x (List.mem_cons_of_mem cv hx))]
    exact inner_fold_ne cv.2 ps (optionsKey cv.1) q
      (fun he => h cv (List.mem_cons_self cv rest) he.symm)

/-- A key bound after the inner loop was either bound before or is the
loop's own key (and then the slug list is non-empty). -/
theorem inner_fold_inventory (vals : List String) :
    ∀ (ps : ParamSet) (key q : String),
      (vals.foldl (fun ps2 val => setdefaultAppend ps2 key val) ps) q ≠ none →
      ps q ≠ none ∨ q = key := by
  induction vals with
  | nil => intro ps key q h; exact Or.inl h
  | cons v vs ih =>
    intro ps key q h
    rw [List.foldl_cons] at h
    rcases ih _ key q h with h' | h'
    · by_cases hq : q = key
      · exact Or.inr hq
      · rw [setdefaultAppend_ne ps key v q hq] at h'
        exact Or.inl h'
    · exact Or.inr h'

/-- A key bound after the whole filter loop was either bound before or is
the `options` key of a listed filter code with a non-empty selection. -/
theorem outer_fold_inventory (filters : List (String × List String)) :
    ∀ (ps : ParamSet) (q : String),
      (filters.foldl addFilterOptions ps) q ≠ none →
      ps q ≠ none ∨ ∃ cv ∈ filters, cv.2 ≠ [] ∧ q = optionsKey cv.1 := by
  induction filters with
  | nil => intro ps q h; exact Or.inl h
  | cons cv rest ih =>
    obtain ⟨code, vals⟩ := cv
    intro ps q h
    rw [List.foldl_cons] at h
    rcases ih _ q h with h' | ⟨cv', hmem, hcv⟩
    · rcases inner_fold_inventory vals ps (optionsKey code) q h' with h'' | h''
      · exact Or.inl h''
      · by_cases hv : vals = []
        · rw [hv] at h'
          exact Or.inl h'
        · exact Or.inr ⟨(code, vals), List.mem_cons_self _ _, hv, h''⟩
    · exact Or.inr ⟨cv', List.mem_cons_of_mem _ hmem, hcv⟩

/-- The base parameter set always carries the city id. -/
theorem baseParams_city (c : String) (cat : Option String) (p pp : Nat) :
    baseParams c cat p pp "city_uuid" = some (PVal.str c) := by
  by_cases h : truthyOptStr cat <;> simp [baseParams, h]

/-- The base parameter set always carries the page number. -/
theorem baseParams_page (c : String) (cat : Option String) (p pp : Nat) :
    baseParams c cat p pp "page" = some (PVal.nat p) := by
  by_cases h : truthyOptStr cat <;> simp [baseParams, h]

/-- The base parameter set always carries the page size. -/
theorem baseParams_per_page (c : String) (cat : Option String) (p pp : Nat) :
    baseParams c cat p pp "per_page" = some (PVal.nat pp) := by
  by_cases h : truthyOptStr cat <;> simp [baseParams, h]

/-- The base parameter set carries the root-category parameter exactly for
a truthy category. -/
theorem baseParams_root (c : String) (cat : Option String) (p pp : Nat) :
    baseParams c cat p pp "root_category_slug"
      = (if truthyOptStr cat then some (PVal.str (cat.getD "")) else none) := by
  by_cases h : truthyOptStr cat <;> simp [baseParams, h]

/-- The base parameter set binds no `options` key. -/
theorem baseParams_optionsKey (c : String) (cat : Option String) (p pp : Nat) (code : String) :
    baseParams c cat p pp (optionsKey code) = none := by
  have h1 := optionsKey_ne_of_head code "city_uuid" (by decide)
  have h2 := optionsKey_ne_of_head code "page" (by decide)
  have h3 := optionsKey_ne_of_head code "per_page" (by decide)
  have h4 := optionsKey_ne_of_head code "root_category_slug" (by decide)
  by_cases h : truthyOptStr cat <;> simp [baseParams, h, h1, h2, h3, h4]

/-- Every key the base parameter set binds is one of the four fixed keys,
the root-category key only for a truthy category. -/
theorem baseParams_inventory (c : String) (cat : Option String) (p pp : Nat) (q : String) :
    baseParams c cat p pp q ≠ none →
    q = "city_uuid" ∨ q = "page" ∨ q = "per_page"
      ∨ (truthyOptStr cat = true ∧ q = "root_category_slug") := by
  intro hne
  by_cases hq1 : q = "city_uuid"
  · exact Or.inl hq1
  by_cases hq2 : q = "page"
  · exact Or.inr (Or.inl hq2)
  by_cases hq3 : q = "per_page"
  · exact Or.inr (Or.inr (Or.inl hq3))
  by_cases hq4 : q = "root_category_slug"
  · by_cases ht : truthyOptStr cat
    · exact Or.inr (Or.inr (Or.inr ⟨ht, hq4⟩))
    · exfalso
      apply hne
      simp [baseParams, ht, hq1, hq2, hq3, hq4]
  · exfalso
    apply hne
    by_cases ht : truthyOptStr cat <;> simp [baseParams, ht, hq1, hq2, hq3, hq4]

/-- C2. For every call to the query builder: the parameter set always
contains the city id, the page and the page size; it contains the
root-category parameter exactly when a (truthy) category slug is given;
for each filter code with one or more selected slugs it emits exactly one
repeated array-style entry per selected slug under `options[<code>][]`;
and it binds no key beyond the fixed keys and those `options` keys, so
nothing else is emitted for any code. -/
theorem fetch_products_params_correct :
    ∀ (city_uuid : String) (category : Option String) (page per_page : Nat)
      (filters : List (String × List String)),
      (fetch_products_params city_uuid category page per_page filters "city_uuid"
          = some (PVal.str city_uuid)
        ∧ fetch_products_params city_uuid category page per_page filters "page"
          = some (PVal.nat page)
        ∧ fetch_products_params city_uuid category page per_page filters "per_page"
          = some (PVal.nat per_page))
      ∧ fetch_products_params city_uuid category page per_page filters "root_category_slug"
          = (if truthyOptStr category then some (PVal.str (category.getD "")) else none)
      ∧ (∀ (code : String) (vals : List String),
          (filters.map Prod.fst).Nodup → (code, vals) ∈ filters → vals ≠ [] →
          fetch_products_params city_uuid category page per_page filters (optionsKey code)
            = some (PVal.list vals))
      ∧ (∀ (q : String),
          fetch_products_params city_uuid category page per_page filters q ≠ none →
          q = "city_uuid" ∨ q = "page" ∨ q = "per_page"
          ∨ (truthyOptStr category = true ∧ q = "root_category_slug")
          ∨ ∃ cv ∈ filters, cv.2 ≠ [] ∧ q = optionsKey cv.1) := by
  intro c cat p pp filters
  refine ⟨⟨?_, ?_, ?_⟩, ?_, ?_, ?_⟩
  · unfold fetch_products_params
    rw [outer_fold_preserve filters _ "city_uuid"
      (fun cv _ => optionsKey_ne_of_head cv.1 _ (by decide))]
    exact baseParams_city c cat p pp
  · unfold fetch_products_params
    rw [outer_fold_preserve filters _ "page"
      (fun cv _ => optionsKey_ne_of_head cv.1 _ (by decide))]
    exact baseParams_page c cat p pp
  · unfold fetch_products_params
    rw [outer_fold_preserve filters _ "per_page"
      (fun cv _ => optionsKey_ne_of_head cv.1 _ (by decide))]
    exact baseParams_per_page c cat p pp
  · unfold fetch_products_params
    rw [outer_fold_preserve filters _ "root_category_slug"
      (fun cv _ => optionsKey_ne_of_head cv.1 _ (by decide))]
    exact baseParams_root c cat p pp
  · intro code vals hnodup hmem hvne
    obtain ⟨pre, post, rfl⟩ := List.append_of_mem hmem
    have hmap : ((pre ++ (code, vals) :: post).map Prod.fst)
        = pre.map Prod.fst ++ code :: post.map Prod.fst := by simp
    rw [hmap] at hnodup
    have hmid := List.nodup_middle.mp hnodup
    have hnotmem := (List.nodup_cons.mp hmid).1
    have hpre_ne : ∀ cv ∈ pre, cv.1 ≠ code := by
      intro cv hcv he
      exact hnotmem (List.mem_append_left _ (he ▸ List.mem_map_of_mem Prod.fst hcv))
    have hpost_ne : ∀ cv ∈ post, cv.1 ≠ code := by
      intro cv hcv he
      exact hnotmem (List.mem_append_right _ (he ▸ List.mem_map_of_mem Prod.fst hcv))
    unfold fetch_products_params
    rw [List.foldl_append, List.foldl_cons]
    have hpre : (pre.foldl addFilterOptions (baseParams c cat p pp)) (optionsKey code)
        = none := by
      rw [outer_fold_preserve pre _ _
        (fun cv hcv he => hpre_ne cv hcv (optionsKey_inj he))]
      exact baseParams_optionsKey c cat p pp code
    have hmid2 : (addFilterOptions (pre.foldl addFilterOptions (baseParams c cat p pp))
        (code, vals)) (optionsKey code) = some (PVal.list vals) :=
      inner_fold_from_none vals _ _ hpre hvne
    rw [outer_fold_preserve post _ _
      (fun cv hcv he => hpost_ne cv hcv (optionsKey_inj he))]
    exact hmid2
  · intro q hq
    unfold fetch_products_params at hq
    rcases outer_fold_inventory filters _ q hq with h | ⟨cv, hmem, hcv⟩
    · rcases baseParams_inventory c cat p pp q h with h | h | h | h
      · exact Or.inl h
      · exact Or.inr (Or.inl h)
      · exact Or.inr (Or.inr (Or.inl h))
      · exact Or.inr (Or.inr (Or.inr (Or.inl h)))
    · exact Or.inr (Or.inr (Or.inr (Or.inr ⟨cv, hmem, hcv⟩)))

/-- Witness for C2: the repeated array-style entry for one concrete filter
code with two selected slugs. -/
theorem fetch_products_params_correct_witness :
    fetch_products_params "u" (some "vino") 1 20 [("cvet", ["krasnoe", "beloe"])]
      (optionsKey "cvet") = some (PVal.list ["krasnoe", "beloe"]) :=
  (fetch_products_params_correct "u" (some "vino") 1 20 [("cvet", ["krasnoe", "beloe"])]).2.2.1
    "cvet" ["krasnoe", "beloe"] (by decide) (List.mem_cons_self _ _) (by decide)

-- === C9: persistence writer ===

/-- Digit characters of values below 16 are never a newline. -/
theorem digitChar_ne_nl : ∀ m, m < 16 → digitChar m ≠ '\n' := by decide

/-- Number serialization emits no newline. -/
theorem natToRevDigits_ne_nl : ∀ (n : Nat), '\n' ∉ natToRevDigits n := by
  intro n
  induction n using Nat.strong_induction_on with
  | _ n ih =>
    rw [natToRevDigits]
    split
    · intro h
      exact digitChar_ne_nl n (by omega) (List.mem_singleton.mp h).symm
    · intro h
      rcases List.mem_cons.mp h with h | h
      · exact digitChar_ne_nl (n % 10) (by omega) h.symm
      · exact ih (n / 10) (Nat.div_lt_self (by omega) (by omega)) h

/-- Integer serialization emits no newline. -/
theorem intChars_ne_nl : ∀ (n : Int), '\n' ∉ intChars n := by
  intro n
  unfold intChars
  split
  · intro h
    rcases List.mem_cons.mp h with h | h
    · exact absurd h (by decide)
    · exact natToRevDigits_ne_nl n.natAbs (List.mem_reverse.mp h)
  · intro h
    exact natToRevDigits_ne_nl n.toNat (List.mem_reverse.mp h)

/-- String escaping emits no newline: the newline character itself is
rewritten to the two-character sequence backslash-n. -/
theorem escapeChar_ne_nl : ∀ (c : Char), '\n' ∉ escapeChar c := by
  intro c
  unfold escapeChar
  split_ifs with h1 h2 h3 h4 h5 h6 h7 h8 <;> intro hm
  · exact absurd hm (by decide)
  · exact absurd hm (by decide)
  · exact absurd hm (by decide)
  · exact absurd hm (by decide)
  · exact absurd hm (by decide)
  · exact absurd hm (by decide)
  · exact absurd hm (by decide)
  · simp only [List.mem_cons, List.not_mem_nil, or_false] at hm
    rcases hm with h | h | h | h | h | h
    · exact absurd h (by decide)
    · exact absurd h (by decide)
    · exact absurd h (by decide)
    · exact absurd h (by decide)
    · exact digitChar_ne_nl (c.toNat / 16) (by omega) h.symm
    · exact digitChar_ne_nl (c.toNat % 16) (by omega) h.symm
  · rcases List.mem_singleton.mp hm with rfl
    exact h3 rfl

/-- A character of a separator-joined list comes from the separator or
from one of the chunks. -/
theorem mem_joinSep :
    ∀ (sep : List Char) (ls : List (List Char)) (c : Char),
      c ∈ joinSep sep ls → c ∈ sep ∨ ∃ l ∈ ls, c ∈ l := by
  intro sep ls
  induction ls with
  | nil => intro c h; exact absurd h (List.not_mem_nil c)
  | cons x xs ih =>
    cases xs with
    | nil =>
      intro c h
      exact Or.inr ⟨x, List.mem_cons_self x [], h⟩
    | cons y ys =>
      intro c h
      rcases List.mem_append.mp h with h' | h'
      · rcases List.mem_append.mp h' with h'' | h''
        · exact Or.inr ⟨x, List.mem_cons_self _ _, h''⟩
        · exact Or.inl h''
      · rcases ih c h' with h'' | ⟨l, hl, hcl⟩
        · exact Or.inl h''
        · exact Or.inr ⟨l, List.mem_cons_of_mem x hl, hcl⟩

/-- A chunk of `dumpsCList` is the serialization of a listed item. -/
theorem mem_dumpsCList :
    ∀ (js : List Json) (l : List Char), l ∈ dumpsCList js → ∃ j ∈ js, l = dumpsC j := by
  intro js
  induction js with
  | nil => intro l h; rw [dumpsCList] at h; exact absurd h (List.not_mem_nil l)
  | cons j js ih =>
    intro l h
    rw [dumpsCList] at h
    rcases List.mem_cons.mp h with h | h
    · exact ⟨j, List.mem_cons_self j js, h⟩
    · rcases ih l h with ⟨j', hj', hl⟩
      exact ⟨j', List.mem_cons_of_mem j hj', hl⟩

/-- A chunk of `dumpsCFields` is the serialized field of a listed pair. -/
theorem mem_dumpsCFields :
    ∀ (kvs : List (String × Json)) (l : List Char),
      l ∈ dumpsCFields kvs →
      ∃ kv ∈ kvs, l = dumpsC (Json.str kv.1) ++ ": ".data ++ dumpsC kv.2 := by
  intro kvs
  induction kvs with
  | nil => intro l h; rw [dumpsCFields] at h; exact absurd h (List.not_mem_nil l)
  | cons kv kvs ih =>
    obtain ⟨k, v⟩ := kv
    intro l h
    rw [dumpsCFields] at h
    rcases List.mem_cons.mp h with h | h
    · exact ⟨(k, v), List.mem_cons_self _ _, h⟩
    · rcases ih l h with ⟨kv', hkv', hl⟩
      exact ⟨kv', List.mem_cons_of_mem _ hkv', hl⟩

/-- The JSON serializer emits no raw newline character: newlines inside
strings are escaped, and every other produced character is printable. -/
theorem dumpsC_ne_nl : ∀ (j : Json), '\n' ∉ dumpsC j := by
  have H : ∀ (k : Nat) (j : Json), sizeOf j < k → '\n' ∉ dumpsC j := by
    intro k
    induction k with
    | zero => intro j hj; omega
    | succ k ih =>
      intro j hj
      cases j with
      | null => rw [dumpsC]; decide
      | bool b => rw [dumpsC]; cases b <;> decide
      | num n => rw [dumpsC]; exact intChars_ne_nl n
      | str s =>
        rw [dumpsC]
        intro h
        rcases List.mem_cons.mp h with h | h
        · exact absurd h (by decide)
        · rcases List.mem_append.mp h with h | h
          · rcases List.mem_flatMap.mp h with ⟨c0, _, hc⟩
            exact escapeChar_ne_nl c0 hc
          · exact absurd h (by decide)
      | arr items =>
        rw [dumpsC]
        intro h
        rcases List.mem_cons.mp h with h | h
        · exact absurd h (by decide)
        · rcases List.mem_append.mp h with h | h
          · rcases mem_joinSep _ _ _ h with h' | ⟨l, hl, hcl⟩
            · exact absurd h' (by decide)
            · obtain ⟨j', hj', rfl⟩ := mem_dumpsCList items l hl
              have hsz : sizeOf j' < k := by
                have h1 := List.sizeOf_lt_of_mem hj'
                have h2 : sizeOf (Json.arr items) = 1 + sizeOf items := by
                  simp
                omega
              exact ih j' hsz hcl
          · exact absurd h (by decide)
      | obj fields =>
        rw [dumpsC]
        intro h
        rcases List.mem_cons.mp h with h | h
        · exact absurd h (by decide)
        · rcases List.mem_append.mp h with h | h
          · rcases mem_joinSep _ _ _ h with h' | ⟨l, hl, hcl⟩
            · exact absurd h' (by decide)
            · obtain ⟨kv, hkv, rfl⟩ := mem_dumpsCFields fields l hl
              have h1 := List.sizeOf_lt_of_mem hkv
              have h2 : sizeOf (Json.obj fields) = 1 + sizeOf fields := by simp
              have h3 : sizeOf kv = 1 + sizeOf kv.1 + sizeOf kv.2 := by
                obtain ⟨a, b⟩ := kv
                simp
              rcases List.mem_append.mp hcl with hcl' | hcl'
              · rcases List.mem_append.mp hcl' with hcl'' | hcl''
                · have hsz : sizeOf (Json.str kv.1) < k := by
                    have : sizeOf (Json.str kv.1) = 1 + sizeOf kv.1 := by simp
                    omega
                  exact ih (Json.str kv.1) hsz hcl''
                · exact absurd hcl'' (by decide)
              · have hsz : sizeOf kv.2 < k := by omega
                exact ih kv.2 hsz hcl'
          · exact absurd h (by decide)
  intro j
  exact H (sizeOf j + 1) j (by omega)

/-- Splitting after a newline-free prefix followed by a newline yields
that prefix as the first line. -/
theorem splitOnNl_append_nl :
    ∀ (a rest : List Char), '\n' ∉ a →
      splitOnNl (a ++ '\n' :: rest) = a :: splitOnNl rest := by
  intro a
  induction a with
  | nil =>
    intro rest _
    simp [splitOnNl]
  | cons c cs ih =>
    intro rest h
    have hc : ¬(c = '\n') := fun e => h (e ▸ List.mem_cons_self c cs)
    rw [List.cons_append]
    rw [show splitOnNl (c :: (cs ++ '\n' :: rest)) =
        if c = '\n' then [] :: splitOnNl (cs ++ '\n' :: rest)
        else match splitOnNl (cs ++ '\n' :: rest) with
          | [] => [[c]]
          | l :: ls => (c :: l) :: ls from rfl]
    rw [if_neg hc, ih rest (fun hm => h (List.mem_cons_of_mem c hm))]

/-- The NDJSON stream splits into exactly one line per product, each line
the serialization of its product, in list order (with the empty trailing
chunk after the final newline). -/
theorem splitOnNl_ndjson :
    ∀ (products : List Json),
      splitOnNl (ndjsonChars products) = products.map dumpsC ++ [[]] := by
  intro products
  induction products with
  | nil => simp [ndjsonChars, splitOnNl]
  | cons p ps ih =>
    have h1 : ndjsonChars (p :: ps) = dumpsC p ++ '\n' :: ndjsonChars ps := by
      unfold ndjsonChars
      rw [List.flatMap_cons]
      simp
    rw [h1, splitOnNl_append_nl _ _ (dumpsC_ne_nl p), ih]
    simp

/-- C9. The persistence writer, given the product list and a destination
path, registers every missing parent directory of the destination, binds
the destination to the NDJSON serialization of the products regardless of
the prior file-system content (full overwrite, no append), and that
content consists of exactly one JSON object per line — one line per
product, in fetch order. -/
theorem save_products_ndjson_correct :
    (∀ (products : List Json) (path : List String) (fs : FileSystem),
        (save_products products path fs).files path
          = some (String.mk (ndjsonChars products)))
    ∧ (∀ (products : List Json) (path : List String) (fs fs' : FileSystem),
        (save_products products path fs).files path
          = (save_products products path fs').files path)
    ∧ (∀ (products : List Json) (path : List String) (fs : FileSystem) (d : List String),
        d ∈ pathParents path → d ∈ (save_products products path fs).dirs)
    ∧ (∀ (products : List Json),
        splitOnNl (ndjsonChars products) = products.map dumpsC ++ [[]]) := by
  refine ⟨?_, ?_, ?_, splitOnNl_ndjson⟩
  · intro products path fs
    simp [save_products]
  · intro products path fs fs'
    simp [save_products]
  · intro products path fs d hd
    exact List.mem_append_left _ hd

/-- Witness for C9: the parent directory of a concrete destination exists
after writing. -/
theorem save_products_ndjson_correct_witness :
    ["result"] ∈ (save_products [] ["result", "out.ndjson"]
      { files := fun _ => none, dirs := [] }).dirs :=
  save_products_ndjson_correct.2.2.1 [] ["result", "out.ndjson"]
    { files := fun _ => none, dirs := [] } ["result"] (by decide)
